import Mathlib

/-!
Shallow embedding of the core of `colorSortedImageGrid` (`index.js`):
color extraction and RGB→HSV conversion, grid-dimension resolution,
cell-size resolution, input-file filtering, record construction and
normalization per visualization mode, stable sorting, and grid
compositing.  JS numbers are modelled as exact rationals (the program
only performs arithmetic whose rounding behaviour is not observable at
the granularity of the specified outputs); JS strings are modelled as
`List Char`.
-/

namespace ColorGrid

/-- Model of JS `Math.round` (round half toward positive infinity). -/
def jsRound (q : ℚ) : ℤ := ⌊q + 1/2⌋

/-- Truncation toward zero, as used by the JS `%` remainder operator. -/
def jsTrunc (q : ℚ) : ℤ := if 0 ≤ q then ⌊q⌋ else ⌈q⌉

/-- Model of the JS `%` operator on numbers: remainder with the sign of
the dividend, `x - y * trunc (x / y)`. -/
def jsFmod (x y : ℚ) : ℚ := x - y * (jsTrunc (x / y) : ℚ)

/-- Model of `+(x.toFixed(1))` for a nonnegative JS number `x`:
round to one decimal digit, ties away from zero. -/
def jsToFixed1 (q : ℚ) : ℚ := (jsRound (q * 10) : ℚ) / 10

/-- An `{ r, g, b }` object with 8-bit channel values, as fed to `hexToHSV`. -/
structure RGB where
  r : ℕ
  g : ℕ
  b : ℕ
deriving DecidableEq

/-- The `{ hue, saturation, value }` object returned by `hexToHSV`.
`hue` is an integer (result of `Math.round`); the other two fields are
percentages rounded to one decimal. -/
structure HSV where
  hue : ℤ
  saturation : ℚ
  value : ℚ
deriving DecidableEq

/-! The local variables of `hexToHSV` (index.js lines 91–125) are
modelled as named functions of the input `{ r, g, b }` object: the
channels normalized to `[0,1]`, `cmin`/`cmax`/`delta`, the piecewise
`hue` (rounded to integer degrees, plus 360 if negative),
`value = (cmax+cmin)/2` and
`saturation = delta / (1 - |2*value - 1|)`. -/

/-- The normalized channel `r / 255` of index.js line 95. -/
def hsvR (hexRGB : RGB) : ℚ := (hexRGB.r : ℚ) / 255

/-- The normalized channel `g / 255` of index.js line 96. -/
def hsvG (hexRGB : RGB) : ℚ := (hexRGB.g : ℚ) / 255

/-- The normalized channel `b / 255` of index.js line 97. -/
def hsvB (hexRGB : RGB) : ℚ := (hexRGB.b : ℚ) / 255

/-- The local `cmin = Math.min(r, g, b)` of index.js line 98. -/
def hsvCmin (hexRGB : RGB) : ℚ := min (hsvR hexRGB) (min (hsvG hexRGB) (hsvB hexRGB))

/-- The local `cmax = Math.max(r, g, b)` of index.js line 99. -/
def hsvCmax (hexRGB : RGB) : ℚ := max (hsvR hexRGB) (max (hsvG hexRGB) (hsvB hexRGB))

/-- The local `delta = cmax - cmin` of index.js line 100. -/
def hsvDelta (hexRGB : RGB) : ℚ := hsvCmax hexRGB - hsvCmin hexRGB

/-- The piecewise hue of index.js lines 105–112, before scaling: 0 when
`delta == 0`; `((g-b)/delta) % 6` when `cmax == r`; `(b-r)/delta + 2`
when `cmax == g`; `(r-g)/delta + 4` otherwise. -/
def hsvHue0 (hexRGB : RGB) : ℚ :=
  if hsvDelta hexRGB = 0 then 0
  else if hsvCmax hexRGB = hsvR hexRGB then
    jsFmod ((hsvG hexRGB - hsvB hexRGB) / hsvDelta hexRGB) 6
  else if hsvCmax hexRGB = hsvG hexRGB then
    (hsvB hexRGB - hsvR hexRGB) / hsvDelta hexRGB + 2
  else (hsvR hexRGB - hsvG hexRGB) / hsvDelta hexRGB + 4

/-- The rounded hue `Math.round(hue * 60)` of index.js line 114. -/
def hsvHue1 (hexRGB : RGB) : ℤ := jsRound (hsvHue0 hexRGB * 60)

/-- The final hue of index.js lines 116–117: add 360 when negative. -/
def hsvHue (hexRGB : RGB) : ℤ :=
  if hsvHue1 hexRGB < 0 then hsvHue1 hexRGB + 360 else hsvHue1 hexRGB

/-- The local `value = (cmax + cmin) / 2` of index.js line 119. -/
def hsvValue0 (hexRGB : RGB) : ℚ := (hsvCmax hexRGB + hsvCmin hexRGB) / 2

/-- The local `saturation` of index.js line 120:
`delta == 0 ? 0 : delta / (1 - Math.abs(2 * value - 1))`. -/
def hsvSat0 (hexRGB : RGB) : ℚ :=
  if hsvDelta hexRGB = 0 then 0
  else hsvDelta hexRGB / (1 - |2 * hsvValue0 hexRGB - 1|)

/-- Embedding of `hexToHSV` from `index.js` (lines 91–125): the final
`{ hue, saturation, value }` object, with saturation and value scaled to
percentages and rounded to one decimal via `+(x * 100).toFixed(1)`
(index.js lines 121–122). -/
def hexToHSV (hexRGB : RGB) : HSV :=
  { hue := hsvHue hexRGB
    saturation := jsToFixed1 (hsvSat0 hexRGB * 100)
    value := jsToFixed1 (hsvValue0 hexRGB * 100) }

/-- Embedding of the luma formula of `index.js` line 202:
`0.3 * r + 0.59 * g + 0.11 * b` on the original 0–255 channel values. -/
def lumaOf (c : RGB) : ℚ := (0.3 : ℚ) * c.r + (0.59 : ℚ) * c.g + (0.11 : ℚ) * c.b

/-! ### Hex-string extraction of the 1×1 pixel (index.js lines 190–197)

`getPixelColor` returns the pixel as a 32-bit RGBA integer
`0xRRGGBBAA`.  The code renders it with `toString(16)` (no leading
zeros), truncates with `substring(0, 6)` and pads with
`padStart(6, '0')`, then parses three 2-digit groups back with
`parseInt(·, 16)`. -/

/-- Model of JS `n.toString(16)` for a nonnegative integer: lowercase
hex digits, most significant first, no leading zeros (`"0"` for 0).
`Nat.toDigits 16` has exactly this behaviour. -/
def jsToString16 (n : ℕ) : List Char := Nat.toDigits 16 n

/-- Model of JS `s.padStart(6, '0')`. -/
def padStart6 (s : List Char) : List Char := List.replicate (6 - s.length) '0' ++ s

/-- Embedding of line 190 of `index.js`:
`getPixelColor(0,0).toString(16).substring(0, 6).padStart(6, '0')`,
as a function of the 32-bit RGBA pixel value. -/
def colorHexStringOfPixel (pixel : ℕ) : List Char :=
  padStart6 ((jsToString16 pixel).take 6)

/-- The numeric value of one lowercase hex digit (the only characters
that ever occur in the strings this program feeds to `parseInt`). -/
def hexDigitVal (c : Char) : ℕ :=
  if '0' ≤ c ∧ c ≤ '9' then c.toNat - '0'.toNat
  else if 'a' ≤ c ∧ c ≤ 'f' then c.toNat - 'a'.toNat + 10
  else 0

/-- Model of JS `parseInt(s, 16)` on a string of valid hex digits. -/
def parseHex16 (s : List Char) : ℕ := s.foldl (fun acc c => 16 * acc + hexDigitVal c) 0

/-- Embedding of lines 193–197 of `index.js`: the `{ r, g, b }` object
parsed from the three 2-character groups of `colorHexString`. -/
def extractedRGB (pixel : ℕ) : RGB :=
  let s := colorHexStringOfPixel pixel
  { r := parseHex16 (s.take 2)
    g := parseHex16 ((s.drop 2).take 2)
    b := parseHex16 ((s.drop 4).take 2) }

/-- The actual red channel of a 32-bit RGBA pixel `0xRRGGBBAA`. -/
def pixelR (pixel : ℕ) : ℕ := pixel / 2 ^ 24 % 256

/-- The actual green channel of a 32-bit RGBA pixel. -/
def pixelG (pixel : ℕ) : ℕ := pixel / 2 ^ 16 % 256

/-- The actual blue channel of a 32-bit RGBA pixel. -/
def pixelB (pixel : ℕ) : ℕ := pixel / 2 ^ 8 % 256

/-! ### Grid compositing (index.js lines 262–300) -/

/-- The two values of the `sortOrder` option (`createOutputGrid` tests
`sortOrder === 'row-major'` and treats anything else as column-major;
the option parser only admits these two strings). -/
inductive SortOrder where
  | rowMajor
  | columnMajor
deriving DecidableEq

/-- Embedding of the nested compositing loops of `createOutputGrid`
(index.js lines 271–295) as the list of visited pixel origins
`(outputX, outputY)` in visiting order.  The JS loops run
`for (outputY = 0; outputY < numRows*px; outputY += px)` (and the same
for `outputX` with `numColumns`); for `px > 0` — `cellSize` is a
positive integer — the loop variable takes exactly the values
`0, px, …, (numRows-1)*px`.  Row-major iterates `outputY` outermost,
column-major iterates `outputX` outermost. -/
def gridTraversal (order : SortOrder) (numRows numColumns px : ℕ) : List (ℕ × ℕ) :=
  match order with
  | .rowMajor =>
      (List.range numRows).flatMap fun row =>
        (List.range numColumns).map fun col => (col * px, row * px)
  | .columnMajor =>
      (List.range numColumns).flatMap fun col =>
        (List.range numRows).map fun row => (col * px, row * px)

/-- Embedding of the body of the compositing loops: at each visited cell
the code reads `imageArray[currentImageArrayIndex++]` and composites it
at the cell's pixel origin when it exists (an out-of-range index yields
`undefined`, which is only logged and skipped).  The result is the list
of `composite` calls `(image, outputX, outputY)` actually performed, in
order. -/
def compositeOps {α : Type} (order : SortOrder) (numRows numColumns px : ℕ)
    (imageArray : List α) : List (α × ℕ × ℕ) :=
  (gridTraversal order numRows numColumns px).enum.filterMap fun cell =>
    (imageArray[cell.1]?).map fun img => (img, cell.2)

/-! ### Dimension resolution (index.js lines 304–326) -/

/-- JS truthiness of an optional numeric command-line option: absent
(`undefined`) and `0` are both falsy. -/
def jsTruthy (o : Option ℕ) : Bool :=
  match o with
  | none => false
  | some n => !(n == 0)

/-- Model of `Math.ceil(n / m)` for natural `n` and positive natural `m`. -/
def jsCeilDiv (n m : ℕ) : ℕ := (n + m - 1) / m

/-- Model of `Math.ceil(Math.sqrt(n))` for a natural number `n`. -/
def ceilSqrt (n : ℕ) : ℕ :=
  if Nat.sqrt n * Nat.sqrt n = n then Nat.sqrt n else Nat.sqrt n + 1

/-- Embedding of `setNumRowsAndNumCols` (index.js lines 304–326) as a
function from the image count and the two optional hints to the final
`(numRows, numColumns)` pair.  The JS code guards on truthiness
(`!argv.numRows || !argv.numColumns`, then `if (argv.numRows)`,
`if (argv.numColumns)`), so a hint with value `0` behaves exactly like
an absent hint. -/
def setNumRowsAndNumCols (numInputImages : ℕ) (numRows numColumns : Option ℕ) :
    Option ℕ × Option ℕ :=
  if !(jsTruthy numRows) || !(jsTruthy numColumns) then
    if jsTruthy numRows then
      (numRows, some (jsCeilDiv numInputImages (numRows.getD 0)))
    else if jsTruthy numColumns then
      (some (jsCeilDiv numInputImages (numColumns.getD 0)), numColumns)
    else
      (some (ceilSqrt numInputImages), some (ceilSqrt numInputImages))
  else
    (numRows, numColumns)

/-! ### Cell-size resolution (index.js lines 129–146) -/

/-- Embedding of `determinePxPerImage` (index.js lines 129–146) as a
function of the optional `pxPerImage` hint and the `(width, height)`
dimensions of the input images, returning the resolved `argv.pxPerImage`.
When the hint is truthy it is kept; otherwise the code folds
`argv.pxPerImage = Math.min(argv.pxPerImage || 999999, Math.min(w, h))`
over the images, starting from the hint's value (`undefined` and `0`
behave identically in `x || 999999`, so the accumulator is modelled as a
natural number with `0` for `undefined`). -/
def determinePxPerImage (pxPerImage : Option ℕ) (dims : List (ℕ × ℕ)) : ℕ :=
  if jsTruthy pxPerImage then pxPerImage.getD 0
  else
    dims.foldl
      (fun acc wh => min (if acc = 0 then 999999 else acc) (min wh.1 wh.2))
      (pxPerImage.getD 0)

/-! ### Input-file filtering (index.js lines 331–333) -/

/-- Boolean test that `needle` occurs at the start of `hay`. -/
def leadsWith : List Char → List Char → Bool
  | [], _ => true
  | _ :: _, [] => false
  | a :: as, b :: bs => a == b && leadsWith as bs

/-- Boolean test that `needle` occurs somewhere in `hay`: the model of
JS `hay.indexOf(needle) > -1`. -/
def hasSub (needle : List Char) : List Char → Bool
  | [] => needle.isEmpty
  | c :: rest => leadsWith needle (c :: rest) || hasSub needle rest

/-- Embedding of the filter predicate of index.js line 333:
`current.toLowerCase().indexOf('.jpg') > -1 || current.toLowerCase().indexOf('.png') > -1`. -/
def filenameKept (name : List Char) : Bool :=
  hasSub ['.', 'j', 'p', 'g'] (name.map Char.toLower) ||
    hasSub ['.', 'p', 'n', 'g'] (name.map Char.toLower)

/-- Written from the spec's words, for comparison with `filenameKept`:
the filename "has a `.jpg` or `.png` file extension, compared
case-insensitively (i.e. the filename ends with `.jpg` or `.png` in any
letter case)". -/
def specHasImageExt (name : List Char) : Prop :=
  (∃ pre, name.map Char.toLower = pre ++ ['.', 'j', 'p', 'g']) ∨
    (∃ pre, name.map Char.toLower = pre ++ ['.', 'p', 'n', 'g'])

/-! ### Per-image records and normalization (index.js lines 150–260) -/

/-- The `sortParameter` option values. -/
inductive SortParameter where
  | filename
  | hue
  | saturation
  | value
  | luma
deriving DecidableEq

/-- The `visualizationMode` option values (`'normal'`, `'dominant'`, `'4x4'`). -/
inductive VisualizationMode where
  | normal
  | dominant
  | fourByFour
deriving DecidableEq

/-- The `colorInfo` object built at index.js lines 198–203. -/
structure ColorInfo where
  hsv : HSV
  luma : ℚ
  colorHexString : List Char
deriving DecidableEq

/-- Symbolic model of a Jimp image: the decoding, resizing and
compositing primitives are external-library collaborators, so they are
embedded as uninterpreted constructors that record which operation
produced the image and at which size.  `source id w h` is a decoded
input image of the given dimensions. -/
inductive Img where
  | source (id : ℕ) (width height : ℕ)
  | greyscaleOf (i : Img)
  | resize1x1 (i : Img)
  | resize4x4 (i : Img)
  | coverTo (i : Img) (w h : ℕ)
  | nnResizeTo (i : Img) (w h : ℕ)
  | filled (w h : ℕ) (color : ℕ)
deriving DecidableEq

/-- Width in pixels of a symbolic image. -/
def Img.width : Img → ℕ
  | .source _ w _ => w
  | .greyscaleOf i => i.width
  | .resize1x1 _ => 1
  | .resize4x4 _ => 4
  | .coverTo _ w _ => w
  | .nnResizeTo _ w _ => w
  | .filled w _ _ => w

/-- Height in pixels of a symbolic image. -/
def Img.height : Img → ℕ
  | .source _ _ h => h
  | .greyscaleOf i => i.height
  | .resize1x1 _ => 1
  | .resize4x4 _ => 4
  | .coverTo _ _ h => h
  | .nnResizeTo _ _ h => h
  | .filled _ h _ => h

/-- The `currentImageData` object as built by `processImages` for one
input file (index.js lines 165–211): `fourByFour` is the `"4x4"` field
(present only in 4x4 mode with a non-filename sort parameter) and
`colorInfo` is present only for a non-filename sort parameter. -/
structure ImageData where
  imageFilename : List Char
  image : Img
  fourByFour : Option Img
  colorInfo : Option ColorInfo
deriving DecidableEq

/-- Embedding of the per-file record construction of `processImages`
(index.js lines 165–211).  `getPixel` is the uninterpreted read of the
single pixel of the 1×1 bicubic downscale (`getPixelColor(0, 0)` on
`imageClone.resize({w:1,h:1})`), as a 32-bit RGBA value.  When the sort
parameter is `filename` the whole color-extraction block (greyscale
conversion, 4×4 clone, color info) is skipped. -/
def buildImageData (sortParameter : SortParameter) (greyscale : Bool)
    (visualizationMode : VisualizationMode) (getPixel : Img → ℕ)
    (imageFilename : List Char) (currentImage : Img) : ImageData :=
  if sortParameter = .filename then
    { imageFilename := imageFilename, image := currentImage,
      fourByFour := none, colorInfo := none }
  else
    let image := if greyscale then Img.greyscaleOf currentImage else currentImage
    let fourByFour :=
      if visualizationMode = .fourByFour then some (Img.resize4x4 image) else none
    let colorHexString := colorHexStringOfPixel (getPixel (Img.resize1x1 image))
    let colorHex : RGB :=
      { r := parseHex16 (colorHexString.take 2)
        g := parseHex16 ((colorHexString.drop 2).take 2)
        b := parseHex16 ((colorHexString.drop 4).take 2) }
    { imageFilename := imageFilename, image := image,
      fourByFour := fourByFour,
      colorInfo := some
        { hsv := hexToHSV colorHex, luma := lumaOf colorHex,
          colorHexString := colorHexString } }

/-- Embedding of the per-record normalization step of `processImages`
(index.js lines 221–252), producing the record's `outputImage`.
`none` models the run-aborting JS `TypeError` raised when the branch
reads a property of an `undefined` field (`currentImageData["4x4"]` in
4x4 mode, `currentImageData.colorInfo.colorHexString` in dominant mode
— both absent when sorting by filename). -/
def normalizeRecord (visualizationMode : VisualizationMode) (pxPerImage : ℕ)
    (d : ImageData) : Option Img :=
  match visualizationMode with
  | .normal => some (Img.coverTo d.image pxPerImage pxPerImage)
  | .fourByFour => d.fourByFour.map fun f => Img.nnResizeTo f pxPerImage pxPerImage
  | .dominant =>
      d.colorInfo.map fun ci =>
        Img.filled pxPerImage pxPerImage (parseHex16 (ci.colorHexString ++ ['f', 'f']))

/-! ### Sorting (index.js lines 352–358) -/

/-- Model of JS `a.localeCompare(b)` on filenames: three-way
lexicographic comparison by character.  (The actual comparison is
locale-aware; on the ASCII filenames this program deals with, the
default locale collation and code-point comparison give the same
ordering.) -/
def jsStrCmp : List Char → List Char → ℤ
  | [], [] => 0
  | [], _ :: _ => -1
  | _ :: _, [] => 1
  | a :: as, b :: bs => if a < b then -1 else if b < a then 1 else jsStrCmp as bs

/-- The numeric value `colorInfo[sortParameter]` read by the comparator
for a non-filename sort parameter. -/
def colorKey (p : SortParameter) (ci : ColorInfo) : ℚ :=
  match p with
  | .filename => 0
  | .hue => (ci.hsv.hue : ℚ)
  | .saturation => ci.hsv.saturation
  | .value => ci.hsv.value
  | .luma => ci.luma

/-- The comparator's key for a record; for a non-filename parameter the
JS code reads `a.colorInfo[argv.sortParameter]` (the pipeline only
reaches the sort with `colorInfo` present on every record in that case;
an absent `colorInfo` is modelled as key 0). -/
def recordKey (p : SortParameter) (d : ImageData) : ℚ :=
  (d.colorInfo.map (colorKey p)).getD 0

/-- Embedding of the comparator of index.js lines 352–358:
`localeCompare` on filenames when sorting by filename, otherwise the
numeric difference of the two `colorInfo` fields. -/
def cmpRecord (p : SortParameter) (a b : ImageData) : ℚ :=
  match p with
  | .filename => (jsStrCmp a.imageFilename b.imageFilename : ℚ)
  | _ => recordKey p a - recordKey p b

/-- The "`a` need not go after `b`" relation induced by the comparator:
a stable sort places `a` before `b` exactly when `cmp a b ≤ 0` or the
two are tied and `a` came first. -/
def jsSortLe (p : SortParameter) (a b : ImageData) : Bool :=
  decide (cmpRecord p a b ≤ 0)

/-- Insert `a` into `l` in front of the first element `b` with
`le a b`.  Folding this over a list yields the unique stable ascending
ordering, which is what `Array.prototype.sort` (stable per the
ECMAScript specification) produces for a consistent comparator. -/
def insertStable {α : Type} (le : α → α → Bool) (a : α) : List α → List α
  | [] => [a]
  | b :: l => if le a b then a :: b :: l else b :: insertStable le a l

/-- Stable ascending sort: model of `Array.prototype.sort` with a
consistent comparator. -/
def stableSort {α : Type} (le : α → α → Bool) : List α → List α
  | [] => []
  | a :: l => insertStable le a (stableSort le l)

/-- Embedding of the sort call of index.js lines 352–358. -/
def sortRecords (p : SortParameter) (records : List ImageData) : List ImageData :=
  stableSort (jsSortLe p) records

/-! ### Helper lemmas on the JS-number models -/

theorem jsTrunc_eq_zero {q : ℚ} (h1 : -1 < q) (h2 : q < 1) : jsTrunc q = 0 := by
  unfold jsTrunc
  split
  · next h => rw [Int.floor_eq_zero_iff, Set.mem_Ico]; exact ⟨h, h2⟩
  · next h =>
      push_neg at h
      rw [Int.ceil_eq_zero_iff, Set.mem_Ioc]
      exact ⟨h1, le_of_lt h⟩

theorem jsFmod_six_eq_self {x : ℚ} (h : |x| ≤ 1) : jsFmod x 6 = x := by
  rw [abs_le] at h
  have h0 : jsTrunc (x / 6) = 0 := jsTrunc_eq_zero (by linarith) (by linarith)
  simp [jsFmod, h0]

theorem jsRound_le {q : ℚ} {c : ℤ} (h : q ≤ (c : ℚ)) : jsRound q ≤ c := by
  unfold jsRound
  have h1 : q + 1 / 2 < ((c + 1 : ℤ) : ℚ) := by push_cast; linarith
  have h2 := Int.floor_lt.mpr h1
  omega

theorem le_jsRound {q : ℚ} {c : ℤ} (h : (c : ℚ) ≤ q) : c ≤ jsRound q := by
  unfold jsRound
  exact Int.le_floor.mpr (by linarith)

theorem jsToFixed1_bounds {q : ℚ} (h0 : 0 ≤ q) (h1 : q ≤ 100) :
    0 ≤ jsToFixed1 q ∧ jsToFixed1 q ≤ 100 := by
  unfold jsToFixed1
  have hle : jsRound (q * 10) ≤ (1000 : ℤ) := jsRound_le (by push_cast; linarith)
  have hge : (0 : ℤ) ≤ jsRound (q * 10) := le_jsRound (by push_cast; linarith)
  constructor
  · exact div_nonneg (by exact_mod_cast hge) (by norm_num)
  · have : ((jsRound (q * 10) : ℚ)) ≤ 1000 := by exact_mod_cast hle
    linarith

theorem jsCeilDiv_spec (n m : ℕ) (hm : 0 < m) :
    n ≤ jsCeilDiv n m * m ∧ jsCeilDiv n m * m < n + m := by
  unfold jsCeilDiv
  have h1 := Nat.mod_add_div' (n + m - 1) m
  have h2 := Nat.mod_lt (n + m - 1) hm
  omega

theorem ceilSqrt_spec (n : ℕ) :
    n ≤ ceilSqrt n * ceilSqrt n ∧ ∀ k, n ≤ k * k → ceilSqrt n ≤ k := by
  unfold ceilSqrt
  split
  · next h =>
      refine ⟨le_of_eq h.symm, fun k hk => ?_⟩
      calc Nat.sqrt n ≤ Nat.sqrt (k * k) := Nat.sqrt_le_sqrt hk
        _ = k := by rw [← pow_two]; exact Nat.sqrt_eq' k
  · next h =>
      refine ⟨le_of_lt (Nat.lt_succ_sqrt n), fun k hk => ?_⟩
      by_contra hlt
      push_neg at hlt
      have hks : k ≤ Nat.sqrt n := by omega
      have h1 : k * k ≤ Nat.sqrt n * Nat.sqrt n := Nat.mul_le_mul hks hks
      have h2 : Nat.sqrt n * Nat.sqrt n ≤ n := Nat.sqrt_le n
      have h3 : n = k * k := le_antisymm hk (le_trans h1 h2)
      have h4 : Nat.sqrt n = k := by
        rw [h3, ← pow_two]; exact Nat.sqrt_eq' k
      exact h (by omega)

theorem jsTruthy_some_iff {n : ℕ} : jsTruthy (some n) = true ↔ n ≠ 0 := by
  simp [jsTruthy]

theorem jsTruthy_false_getD {o : Option ℕ} (h : jsTruthy o = false) : o.getD 0 = 0 := by
  cases o with
  | none => rfl
  | some n => simpa [jsTruthy] using h

theorem sqrt_ten : Nat.sqrt 10 = 3 :=
  le_antisymm (Nat.lt_succ_iff.mp (Nat.sqrt_lt.mpr (by norm_num))) (Nat.le_sqrt.mpr (by norm_num))

/-! ### Helper lemmas for the cell-size fold -/

theorem foldl_px_eq_foldl_min {dims : List (ℕ × ℕ)} (hl : ∀ p ∈ dims, 0 < min p.1 p.2) :
    ∀ {acc : ℕ}, 0 < acc →
      dims.foldl (fun acc wh => min (if acc = 0 then 999999 else acc) (min wh.1 wh.2)) acc
        = (dims.map fun p => min p.1 p.2).foldl min acc := by
  induction dims with
  | nil => intro acc _; rfl
  | cons y l ih =>
      intro acc hacc
      have hy : 0 < min y.1 y.2 := hl y (List.mem_cons_self y l)
      have hacc' : acc ≠ 0 := Nat.pos_iff_ne_zero.mp hacc
      simp only [List.foldl_cons, List.map_cons, if_neg hacc']
      exact ih (fun x hx => hl x (List.mem_cons_of_mem y hx)) (lt_min hacc hy)

theorem foldl_min_comm (c : ℕ) : ∀ (l : List ℕ) (a : ℕ),
    l.foldl min (min c a) = min c (l.foldl min a) := by
  intro l
  induction l with
  | nil => intro a; rfl
  | cons x l ih =>
      intro a
      simp only [List.foldl_cons, min_assoc]
      exact ih (min a x)

/-! ### Claim C2: dimension resolution -/

/-- C2 counterexample: with `numInputImages = 10` the hints `rowsHint = 0`
and `colsHint = 5` are both given, yet the code does not use them as-is:
the zero rows hint is falsy, so the code recomputes `numRows` as
`Math.ceil(10 / 5) = 2`. -/
theorem C2_counterexample :
    setNumRowsAndNumCols 10 (some 0) (some 5) = (some 2, some 5) ∧
      setNumRowsAndNumCols 10 (some 0) (some 5) ≠ (some 0, some 5) := by
  constructor
  · rfl
  · have h1 : setNumRowsAndNumCols 10 (some 0) (some 5) = (some 2, some 5) := rfl
    rw [h1]
    decide

/-- C2 amended: hints count as given only when nonzero (a zero hint is
falsy in JS and behaves exactly like an absent one).  Then: both hints
nonzero → used as-is; only a rows hint `r` → `columns = ceil(n / r)`
(characterized as the least `k` with `n ≤ k * r`, via
`n ≤ k * r ∧ k * r < n + r`); only a columns hint `c` →
`rows = ceil(n / c)`; neither → `rows = columns = ceil (sqrt n)`
(characterized as the least `k` with `n ≤ k * k`).  In particular
`resolve(10, none, none) = (4, 4)` and `resolve(10, rowsHint = 2)`
yields `columns = 5`. -/
theorem C2_amended :
    (∀ n r c : ℕ, r ≠ 0 → c ≠ 0 →
        setNumRowsAndNumCols n (some r) (some c) = (some r, some c)) ∧
    (∀ (n r : ℕ) (oc : Option ℕ), 0 < n → r ≠ 0 → jsTruthy oc = false →
        ∃ k, setNumRowsAndNumCols n (some r) oc = (some r, some k) ∧
          n ≤ k * r ∧ k * r < n + r) ∧
    (∀ (n c : ℕ) (orow : Option ℕ), 0 < n → c ≠ 0 → jsTruthy orow = false →
        ∃ k, setNumRowsAndNumCols n orow (some c) = (some k, some c) ∧
          n ≤ k * c ∧ k * c < n + c) ∧
    (∀ (n : ℕ) (orow oc : Option ℕ), jsTruthy orow = false → jsTruthy oc = false →
        ∃ k, setNumRowsAndNumCols n orow oc = (some k, some k) ∧
          n ≤ k * k ∧ ∀ j, n ≤ j * j → k ≤ j) ∧
    setNumRowsAndNumCols 10 none none = (some 4, some 4) ∧
    setNumRowsAndNumCols 10 (some 2) none = (some 2, some 5) := by
  refine ⟨?_, ?_, ?_, ?_, ?_, ?_⟩
  · intro n r c hr hc
    have h1 : jsTruthy (some r) = true := jsTruthy_some_iff.mpr hr
    have h2 : jsTruthy (some c) = true := jsTruthy_some_iff.mpr hc
    simp [setNumRowsAndNumCols, h1, h2]
  · intro n r oc _ hr hoc
    have h1 : jsTruthy (some r) = true := jsTruthy_some_iff.mpr hr
    refine ⟨jsCeilDiv n r, ?_, (jsCeilDiv_spec n r (Nat.pos_of_ne_zero hr)).1,
      (jsCeilDiv_spec n r (Nat.pos_of_ne_zero hr)).2⟩
    simp [setNumRowsAndNumCols, h1, hoc]
  · intro n c orow _ hc horow
    have h1 : jsTruthy (some c) = true := jsTruthy_some_iff.mpr hc
    refine ⟨jsCeilDiv n c, ?_, (jsCeilDiv_spec n c (Nat.pos_of_ne_zero hc)).1,
      (jsCeilDiv_spec n c (Nat.pos_of_ne_zero hc)).2⟩
    simp [setNumRowsAndNumCols, h1, horow]
  · intro n orow oc horow hoc
    refine ⟨ceilSqrt n, ?_, (ceilSqrt_spec n).1, (ceilSqrt_spec n).2⟩
    simp [setNumRowsAndNumCols, horow, hoc]
  · simp [setNumRowsAndNumCols, jsTruthy, ceilSqrt, sqrt_ten]
  · rfl

/-- C2 amended, witnessed at concrete inputs: a lone nonzero rows hint
`2` with `n = 10` resolves columns to the least multiple cover of 10. -/
theorem C2_amended_witness :
    ∃ k, setNumRowsAndNumCols 10 (some 2) none = (some 2, some k) ∧
      10 ≤ k * 2 ∧ k * 2 < 10 + 2 :=
  C2_amended.2.1 10 2 none (by decide) (by decide) rfl

/-! ### Claim C6: cell-size resolution -/

/-- C6 counterexample: with no hint and a single 1000000×1000000 input
image, the code resolves the cell size to 999999 (the constant seeded by
`argv.pxPerImage || 999999`), not to the minimum dimension 1000000 over
the input images as the claim states. -/
theorem C6_counterexample :
    determinePxPerImage none [(1000000, 1000000)] = 999999 ∧
      (999999 : ℕ) ≠ min 1000000 1000000 := by
  exact ⟨rfl, by decide⟩

/-- C6 amended: a nonzero (truthy) `pxPerImage` hint is used verbatim
(a hint of `0` is falsy and behaves like an absent one); with no truthy
hint, the resolved cell size is the minimum of 999999 and the smallest
`min(width, height)` over the input images (given that every input
image has positive dimensions). -/
theorem C6_amended :
    (∀ (pxPerImage : Option ℕ) (dims : List (ℕ × ℕ)), jsTruthy pxPerImage = true →
        determinePxPerImage pxPerImage dims = pxPerImage.getD 0) ∧
    (∀ (pxPerImage : Option ℕ) (dims : List (ℕ × ℕ)) (m : ℕ),
        jsTruthy pxPerImage = false →
        (dims.map fun p => min p.1 p.2).min? = some m →
        (∀ p ∈ dims, 0 < min p.1 p.2) →
        determinePxPerImage pxPerImage dims = min 999999 m) := by
  constructor
  · intro px dims hpx
    simp [determinePxPerImage, hpx]
  · intro px dims m hpx hmin hpos
    have hgetD := jsTruthy_false_getD hpx
    rw [determinePxPerImage, if_neg (by simp [hpx]), hgetD]
    cases dims with
    | nil => simp [List.min?] at hmin
    | cons d rest =>
        have hd : 0 < min d.1 d.2 := hpos d (List.mem_cons_self d rest)
        have hrest : ∀ p ∈ rest, 0 < min p.1 p.2 :=
          fun p hp => hpos p (List.mem_cons_of_mem d hp)
        have hm : m = ((rest.map fun p => min p.1 p.2).foldl min (min d.1 d.2)) := by
          have : ((d :: rest).map fun p => min p.1 p.2).min? =
              some ((rest.map fun p => min p.1 p.2).foldl min (min d.1 d.2)) := rfl
          rw [this] at hmin
          exact (Option.some_injective _ hmin).symm
        simp only [List.foldl_cons, if_pos rfl]
        rw [foldl_px_eq_foldl_min hrest (lt_min (by norm_num) hd)]
        rw [foldl_min_comm, hm]
        norm_num

/-- C6 amended, witnessed: hint `7` is used verbatim, and with no hint a
single 4×5 image resolves the cell size to `min 999999 4 = 4`. -/
theorem C6_amended_witness :
    determinePxPerImage (some 7) [(3, 9)] = (some 7).getD 0 ∧
      determinePxPerImage none [(4, 5)] = min 999999 4 :=
  ⟨C6_amended.1 (some 7) [(3, 9)] rfl,
    C6_amended.2 none [(4, 5)] 4 rfl rfl (by decide)⟩

/-! ### Helper lemmas for the grid traversal -/

theorem flatMap_range_map_length {α : Type} (m n : ℕ) (f : ℕ → ℕ → α) :
    ((List.range m).flatMap fun a => (List.range n).map fun b => f a b).length = m * n := by
  rw [List.length_flatMap]
  have h : (List.map (List.length ∘ fun a => (List.range n).map fun b => f a b)
      (List.range m)) = List.replicate m n := by
    rw [show (List.length ∘ fun a => (List.range n).map fun b => f a b) =
        fun _ => n from funext fun a => by simp]
    rw [List.map_const', List.length_range]
  rw [h, List.sum_replicate, smul_eq_mul]

theorem flatMap_range_map_getElem {α : Type} (f : ℕ → ℕ → α) :
    ∀ (m : ℕ) (n i : ℕ), i < m * n →
      ((List.range m).flatMap fun a => (List.range n).map fun b => f a b)[i]? =
        some (f (i / n) (i % n)) := by
  intro m
  induction m with
  | zero => intro n i hi; omega
  | succ m ih =>
      intro n i hi
      have hsm : (m + 1) * n = m * n + n := by ring
      have hn : 0 < n := Nat.pos_of_ne_zero (fun h => by subst h; omega)
      rw [List.range_succ, List.flatMap_append]
      by_cases hlt : i < m * n
      · rw [List.getElem?_append, if_pos (by rw [flatMap_range_map_length]; exact hlt)]
        exact ih n i hlt
      · push_neg at hlt
        rw [List.getElem?_append_right (by rw [flatMap_range_map_length]; exact hlt)]
        rw [flatMap_range_map_length]
        have hj : i - m * n < n := by omega
        have hmn : n * m = m * n := Nat.mul_comm n m
        have h1 : i = n * m + (i - m * n) := by omega
        simp only [List.flatMap_cons, List.flatMap_nil, List.append_nil]
        rw [List.getElem?_map, List.getElem?_range hj]
        have hdiv : i / n = m := by
          rw [h1, Nat.mul_add_div hn, Nat.div_eq_of_lt hj]
          omega
        have hmod : i % n = i - m * n := by
          rw [h1, Nat.mul_add_mod, Nat.mod_eq_of_lt hj]
          omega
        rw [hdiv, hmod]
        rfl

theorem gridTraversal_length (order : SortOrder) (numRows numColumns px : ℕ) :
    (gridTraversal order numRows numColumns px).length = numRows * numColumns := by
  cases order with
  | rowMajor => exact flatMap_range_map_length numRows numColumns _
  | columnMajor =>
      rw [gridTraversal, flatMap_range_map_length, Nat.mul_comm]

theorem enumFrom_filterMap_zip {α β : Type} (imgs : List β) :
    ∀ (l : List α) (k : ℕ),
      (List.enumFrom k l).filterMap (fun cell => (imgs[cell.1]?).map fun img => (img, cell.2))
        = (imgs.drop k).zip l := by
  intro l
  induction l with
  | nil => intro k; simp
  | cons x l ih =>
      intro k
      rw [List.enumFrom_cons, List.filterMap_cons]
      cases himgs : imgs[k]? with
      | none =>
          have hk : imgs.length ≤ k := List.getElem?_eq_none_iff.mp himgs
          rw [List.drop_eq_nil_of_le hk]
          simp only [Option.map_none', List.zip_nil_left]
          rw [ih (k + 1), List.drop_eq_nil_of_le (by omega)]
          simp
      | some im =>
          have hk : k < imgs.length := by
            by_contra h
            rw [List.getElem?_eq_none_iff.mpr (by omega)] at himgs
            exact Option.noConfusion himgs
          have hdrop : imgs.drop k = imgs[k] :: imgs.drop (k + 1) :=
            List.drop_eq_getElem_cons hk
          have him : imgs[k] = im := by
            rw [List.getElem?_eq_getElem hk] at himgs
            exact Option.some_injective _ himgs
          rw [hdrop, him]
          simp only [Option.map_some', List.zip_cons_cons]
          rw [ih (k + 1)]

theorem compositeOps_eq_zip {α : Type} (order : SortOrder) (numRows numColumns px : ℕ)
    (imgs : List α) :
    compositeOps order numRows numColumns px imgs =
      imgs.zip (gridTraversal order numRows numColumns px) := by
  rw [compositeOps, show (gridTraversal order numRows numColumns px).enum =
    List.enumFrom 0 (gridTraversal order numRows numColumns px) from rfl]
  rw [enumFrom_filterMap_zip, List.drop_zero]

theorem zip_getElem?_of {α β : Type} {l1 : List α} {l2 : List β} {i : ℕ} {a : α} {b : β}
    (h1 : l1[i]? = some a) (h2 : l2[i]? = some b) : (l1.zip l2)[i]? = some (a, b) := by
  induction l1 generalizing l2 i with
  | nil => exact absurd h1 (by simp)
  | cons x l ih =>
      cases l2 with
      | nil => exact absurd h2 (by simp)
      | cons y l' =>
          cases i with
          | zero =>
              simp only [List.getElem?_cons_zero] at h1 h2
              rw [List.zip_cons_cons, List.getElem?_cons_zero]
              rw [Option.some_injective _ h1, Option.some_injective _ h2]
          | succ n =>
              simp only [List.getElem?_cons_succ] at h1 h2
              rw [List.zip_cons_cons, List.getElem?_cons_succ]
              exact ih h1 h2

/-! ### Claim C1: grid placement mapping -/

/-- C1: in row-major order, image `i` (0-indexed) is composited at pixel
origin `((i mod columns) * cellSize, (i div columns) * cellSize)`, i.e.
at column `i mod columns` and row `i div columns`; in column-major order
at row `i mod rows` and column `i div rows`.  In particular for a 2×2
row-major layout with 4 images, image 0 lands at (row 0, col 0), image 1
at (row 0, col 1), image 2 at (row 1, col 0), image 3 at (row 1, col 1);
for column-major, image 1 lands at (row 1, col 0). -/
theorem C1_grid_placement :
    (∀ (α : Type) (numRows numColumns px i : ℕ) (imgs : List α) (img : α),
        0 < px → imgs[i]? = some img → i < numRows * numColumns →
        (compositeOps .rowMajor numRows numColumns px imgs)[i]? =
          some (img, (i % numColumns) * px, (i / numColumns) * px)) ∧
    (∀ (α : Type) (numRows numColumns px i : ℕ) (imgs : List α) (img : α),
        0 < px → imgs[i]? = some img → i < numRows * numColumns →
        (compositeOps .columnMajor numRows numColumns px imgs)[i]? =
          some (img, (i / numRows) * px, (i % numRows) * px)) ∧
    (∀ (α : Type) (px : ℕ) (img0 img1 img2 img3 : α), 0 < px →
        compositeOps .rowMajor 2 2 px [img0, img1, img2, img3] =
          [(img0, 0, 0), (img1, px, 0), (img2, 0, px), (img3, px, px)] ∧
        compositeOps .columnMajor 2 2 px [img0, img1, img2, img3] =
          [(img0, 0, 0), (img1, 0, px), (img2, px, 0), (img3, px, px)]) := by
  refine ⟨?_, ?_, ?_⟩
  · intro α numRows numColumns px i imgs img _ himg hi
    rw [compositeOps_eq_zip]
    refine zip_getElem?_of himg ?_
    rw [gridTraversal]
    rw [flatMap_range_map_getElem (fun row col => (col * px, row * px)) numRows numColumns i hi]
  · intro α numRows numColumns px i imgs img _ himg hi
    rw [compositeOps_eq_zip]
    refine zip_getElem?_of himg ?_
    rw [gridTraversal]
    rw [flatMap_range_map_getElem (fun col row => (col * px, row * px)) numColumns numRows i
      (by rw [Nat.mul_comm]; exact hi)]
  · intro α px img0 img1 img2 img3 _
    constructor
    · rw [compositeOps_eq_zip]
      simp [gridTraversal, List.range_succ, List.zip_cons_cons]
    · rw [compositeOps_eq_zip]
      simp [gridTraversal, List.range_succ, List.zip_cons_cons]

/-- C1, witnessed on the 2×2 grid with cell size 1 and four distinct
images. -/
theorem C1_grid_placement_witness :
    compositeOps .rowMajor 2 2 1 [Img.source 0 1 1, Img.source 1 1 1,
        Img.source 2 1 1, Img.source 3 1 1] =
      [(Img.source 0 1 1, 0, 0), (Img.source 1 1 1, 1, 0),
        (Img.source 2 1 1, 0, 1), (Img.source 3 1 1, 1, 1)] ∧
    compositeOps .columnMajor 2 2 1 [Img.source 0 1 1, Img.source 1 1 1,
        Img.source 2 1 1, Img.source 3 1 1] =
      [(Img.source 0 1 1, 0, 0), (Img.source 1 1 1, 0, 1),
        (Img.source 2 1 1, 1, 0), (Img.source 3 1 1, 1, 1)] :=
  C1_grid_placement.2.2 Img 1 (Img.source 0 1 1) (Img.source 1 1 1)
    (Img.source 2 1 1) (Img.source 3 1 1) (by decide)

/-! ### Claim C7: composite behavior under count/capacity mismatch -/

/-- C7: with a positive cell size the compositing loop visits exactly
`rows * columns` cells; the composite calls performed are exactly the
images zipped with the traversal origins, so with fewer images than
cells the remaining cells receive no composite (they keep the canvas's
initial blank fill) and compositing still completes, and with more
images than cells the images beyond index `rows*columns - 1` are never
composited: the number of composite calls is
`min imgs.length (rows * columns)` and no call exists at position
`rows * columns` or beyond. -/
theorem C7_capacity_mismatch :
    ∀ (α : Type) (order : SortOrder) (numRows numColumns px : ℕ) (imgs : List α), 0 < px →
      (gridTraversal order numRows numColumns px).length = numRows * numColumns ∧
      compositeOps order numRows numColumns px imgs =
        imgs.zip (gridTraversal order numRows numColumns px) ∧
      (compositeOps order numRows numColumns px imgs).length =
        min imgs.length (numRows * numColumns) ∧
      ∀ i, numRows * numColumns ≤ i →
        (compositeOps order numRows numColumns px imgs)[i]? = none := by
  intro α order numRows numColumns px imgs _
  have hlen := gridTraversal_length order numRows numColumns px
  have hzip := compositeOps_eq_zip order numRows numColumns px imgs
  refine ⟨hlen, hzip, ?_, ?_⟩
  · rw [hzip, List.length_zip, hlen]
  · intro i hi
    rw [hzip, List.getElem?_eq_none_iff, List.length_zip, hlen]
    omega

/-- C7, witnessed: a 2×2 grid given five images performs exactly four
composite calls (the fifth image is dropped), and a 2×2 grid given one
image performs exactly one. -/
theorem C7_capacity_mismatch_witness :
    (compositeOps .rowMajor 2 2 1 [10, 20, 30, 40, 50]).length = min 5 (2 * 2) ∧
      (compositeOps .rowMajor 2 2 1 ([90] : List ℕ)).length = min 1 (2 * 2) :=
  ⟨(C7_capacity_mismatch ℕ .rowMajor 2 2 1 [10, 20, 30, 40, 50] (by decide)).2.2.1,
    (C7_capacity_mismatch ℕ .rowMajor 2 2 1 [90] (by decide)).2.2.1⟩

/-! ### Helper lemmas for the filename filter -/

theorem leadsWith_iff {needle : List Char} :
    ∀ {hay : List Char}, leadsWith needle hay = true ↔ ∃ rest, hay = needle ++ rest := by
  induction needle with
  | nil => intro hay; simp [leadsWith]
  | cons c cs ih =>
      intro hay
      cases hay with
      | nil => simp [leadsWith]
      | cons d ds =>
          rw [leadsWith, Bool.and_eq_true, beq_iff_eq, ih]
          constructor
          · rintro ⟨rfl, rest, rfl⟩
            exact ⟨rest, rfl⟩
          · rintro ⟨rest, h⟩
            rw [List.cons_append] at h
            obtain ⟨rfl, h2⟩ := List.cons.injEq .. ▸ h
            exact ⟨rfl, rest, h2⟩

theorem hasSub_iff {needle : List Char} :
    ∀ {hay : List Char}, hasSub needle hay = true ↔
      ∃ pre post, hay = pre ++ needle ++ post := by
  intro hay
  induction hay with
  | nil =>
      rw [hasSub, List.isEmpty_iff]
      constructor
      · rintro rfl; exact ⟨[], [], rfl⟩
      · rintro ⟨pre, post, h⟩
        rcases pre with _ | ⟨p, ps⟩
        · rcases needle with _ | ⟨x, xs⟩
          · rfl
          · exact List.noConfusion h
        · exact List.noConfusion h
  | cons c rest ih =>
      rw [hasSub, Bool.or_eq_true, leadsWith_iff, ih]
      constructor
      · rintro (⟨tail, h⟩ | ⟨pre, post, h⟩)
        · exact ⟨[], tail, by simpa using h⟩
        · exact ⟨c :: pre, post, by simp [h]⟩
      · rintro ⟨pre, post, h⟩
        rcases pre with _ | ⟨p, ps⟩
        · exact Or.inl ⟨post, by simpa using h⟩
        · rw [List.cons_append, List.cons_append] at h
          obtain ⟨rfl, h2⟩ := List.cons.injEq .. ▸ h
          exact Or.inr ⟨ps, post, by simpa using h2⟩

/-! ### Claim C4: input filtering -/

/-- C4 counterexample: the filename `x.jpg.txt` does not end with a
`.jpg` or `.png` extension, yet the filter keeps it, because index.js
line 333 tests `indexOf('.jpg') > -1` (substring containment), not the
file extension. -/
theorem C4_counterexample :
    filenameKept ['x', '.', 'j', 'p', 'g', '.', 't', 'x', 't'] = true ∧
      ¬ specHasImageExt ['x', '.', 'j', 'p', 'g', '.', 't', 'x', 't'] := by
  refine ⟨rfl, ?_⟩
  rintro (⟨pre, hp⟩ | ⟨pre, hp⟩) <;>
  · have h2 := congrArg (fun l => l.reverse.head?) hp
    simp [List.reverse_append] at h2

/-- C4 amended: a filename is kept by the filter if and only if its
lowercased form contains `.jpg` or `.png` as a substring anywhere (not
only as an extension).  Every filename that does end with `.jpg` or
`.png` in any letter case is in particular kept, but so are filenames
like `x.jpg.txt`. -/
theorem C4_amended :
    (∀ name : List Char, filenameKept name = true ↔
        ((∃ pre post, name.map Char.toLower = pre ++ ['.', 'j', 'p', 'g'] ++ post) ∨
          (∃ pre post, name.map Char.toLower = pre ++ ['.', 'p', 'n', 'g'] ++ post))) ∧
    (∀ name : List Char, specHasImageExt name → filenameKept name = true) := by
  have h1 : ∀ name : List Char, filenameKept name = true ↔
      ((∃ pre post, name.map Char.toLower = pre ++ ['.', 'j', 'p', 'g'] ++ post) ∨
        (∃ pre post, name.map Char.toLower = pre ++ ['.', 'p', 'n', 'g'] ++ post)) := by
    intro name
    rw [filenameKept, Bool.or_eq_true, hasSub_iff, hasSub_iff]
  refine ⟨h1, fun name h => (h1 name).mpr ?_⟩
  rcases h with ⟨pre, hp⟩ | ⟨pre, hp⟩
  · exact Or.inl ⟨pre, [], by simpa using hp⟩
  · exact Or.inr ⟨pre, [], by simpa using hp⟩

/-- C4 amended, witnessed: the upper-case extension `a.JPG` is kept
(applied through the ends-with direction of the amended claim). -/
theorem C4_amended_witness :
    filenameKept ['a', '.', 'J', 'P', 'G'] = true :=
  C4_amended.2 ['a', '.', 'J', 'P', 'G'] (Or.inl ⟨['a'], by decide⟩)

/-! ### Claim C3: pixel-channel extraction -/

/-- C3: the hex-string round trip of index.js line 190 is wrong whenever
the 32-bit RGBA pixel value is below `0x10000000` (red channel < 16):
`toString(16)` drops leading zeros, `substring(0, 6)` then takes six
characters from the wrong end, and `padStart` re-pads on the left.  For
an opaque black pixel (RGBA `0x000000FF`) the code produces the
`colorHexString` `"0000ff"` and feeds `(r, g, b) = (0, 0, 255)` to the
HSV conversion and the luma formula, although the pixel's actual
channels are `(0, 0, 0)`. -/
theorem C3_pixel_extraction_bug :
    colorHexStringOfPixel 0x000000FF = ['0', '0', '0', '0', 'f', 'f'] ∧
      extractedRGB 0x000000FF = ⟨0, 0, 255⟩ ∧
      pixelR 0x000000FF = 0 ∧ pixelG 0x000000FF = 0 ∧ pixelB 0x000000FF = 0 ∧
      extractedRGB 0x000000FF ≠
        ⟨pixelR 0x000000FF, pixelG 0x000000FF, pixelB 0x000000FF⟩ := by
  exact ⟨rfl, rfl, rfl, rfl, rfl, by decide⟩

/-! ### Claim C5: normalization totality across modes -/

/-- C5 counterexample: when sorting by filename the record carries no
`colorInfo` and no 4×4 downscale, so in dominant mode and in 4x4 mode
the normalization step dereferences an `undefined` field (modelled as
`none`): no normalized image is assigned and the run crashes instead of
completing. -/
theorem C5_counterexample :
    normalizeRecord .dominant 8
        (buildImageData .filename false .dominant (fun _ => 0) ['a'] (Img.source 0 9 9)) =
      none ∧
    normalizeRecord .fourByFour 8
        (buildImageData .filename false .fourByFour (fun _ => 0) ['a'] (Img.source 0 9 9)) =
      none := by
  exact ⟨rfl, rfl⟩

/-- C5 amended: every record is assigned a normalized image of side
`cellSize` according to the active visualization mode for every sort
parameter with the exception of the filename/dominant and filename/4x4
combinations: in normal mode for every sort parameter including
filename, and in dominant and 4x4 mode for every non-filename sort
parameter.  In dominant mode the normalized image is a
`cellSize × cellSize` canvas filled uniformly with the record's
extracted dominant color (the retained hex string plus an opaque alpha
byte), and in 4x4 mode it is the nearest-neighbor enlargement of the
record's 4×4 downscale. -/
theorem C5_amended :
    ∀ (sp : SortParameter) (grey : Bool) (mode : VisualizationMode) (getPixel : Img → ℕ)
      (name : List Char) (img : Img) (px : ℕ),
      sp ≠ .filename ∨ mode = .normal →
      ∃ out, normalizeRecord mode px (buildImageData sp grey mode getPixel name img) = some out ∧
        out.width = px ∧ out.height = px ∧
        (mode = .normal →
          out = Img.coverTo (buildImageData sp grey mode getPixel name img).image px px) ∧
        (mode = .dominant →
          ∃ ci, (buildImageData sp grey mode getPixel name img).colorInfo = some ci ∧
            out = Img.filled px px (parseHex16 (ci.colorHexString ++ ['f', 'f']))) ∧
        (mode = .fourByFour →
          out = Img.nnResizeTo
            (Img.resize4x4 (buildImageData sp grey mode getPixel name img).image) px px) := by
  intro sp grey mode getPixel name img px hyp
  cases mode with
  | normal =>
      exact ⟨Img.coverTo (buildImageData sp grey .normal getPixel name img).image px px,
        rfl, rfl, rfl, fun _ => rfl, fun h => absurd h (by decide), fun h => absurd h (by decide)⟩
  | dominant =>
      have hsp : sp ≠ .filename := by
        rcases hyp with h | h
        · exact h
        · exact absurd h (by decide)
      simp only [buildImageData, if_neg hsp, normalizeRecord, Option.map_some']
      refine ⟨_, rfl, rfl, rfl, fun h => absurd h (by decide), fun _ => ⟨_, rfl, rfl⟩, fun h => absurd h (by decide)⟩
  | fourByFour =>
      have hsp : sp ≠ .filename := by
        rcases hyp with h | h
        · exact h
        · exact absurd h (by decide)
      simp only [buildImageData, if_neg hsp, normalizeRecord, if_pos rfl, Option.map_some']
      exact ⟨_, rfl, rfl, rfl, fun h => absurd h (by decide), fun h => absurd h (by decide), fun _ => rfl⟩

/-- C5 amended, witnessed: a record built for hue sorting in dominant
mode is normalized to a flat swatch. -/
theorem C5_amended_witness :
    ∃ out, normalizeRecord .dominant 8
        (buildImageData .hue false .dominant (fun _ => 4278190335) ['a'] (Img.source 0 9 9)) =
        some out ∧
      out.width = 8 ∧ out.height = 8 ∧
      (VisualizationMode.dominant = .normal →
        out = Img.coverTo (buildImageData .hue false .dominant (fun _ => 4278190335) ['a']
          (Img.source 0 9 9)).image 8 8) ∧
      (VisualizationMode.dominant = .dominant →
        ∃ ci, (buildImageData .hue false .dominant (fun _ => 4278190335) ['a']
            (Img.source 0 9 9)).colorInfo = some ci ∧
          out = Img.filled 8 8 (parseHex16 (ci.colorHexString ++ ['f', 'f']))) ∧
      (VisualizationMode.dominant = .fourByFour →
        out = Img.nnResizeTo (Img.resize4x4 (buildImageData .hue false .dominant
          (fun _ => 4278190335) ['a'] (Img.source 0 9 9)).image) 8 8) :=
  C5_amended .hue false .dominant (fun _ => 4278190335) ['a'] (Img.source 0 9 9) 8
    (Or.inl (by decide))

/-! ### Helper lemmas for the HSV ranges -/

theorem hsv_channel_nonneg (c : RGB) : 0 ≤ hsvR c ∧ 0 ≤ hsvG c ∧ 0 ≤ hsvB c := by
  refine ⟨?_, ?_, ?_⟩ <;> · simp only [hsvR, hsvG, hsvB]; positivity

theorem hsv_channel_le_one (c : RGB) (hr : c.r ≤ 255) (hg : c.g ≤ 255) (hb : c.b ≤ 255) :
    hsvR c ≤ 1 ∧ hsvG c ≤ 1 ∧ hsvB c ≤ 1 := by
  refine ⟨?_, ?_, ?_⟩ <;>
  · simp only [hsvR, hsvG, hsvB]
    rw [div_le_one (by norm_num)]
    exact_mod_cast by assumption

theorem hsvCmin_nonneg (c : RGB) : 0 ≤ hsvCmin c := by
  obtain ⟨h1, h2, h3⟩ := hsv_channel_nonneg c
  exact le_min h1 (le_min h2 h3)

theorem hsvCmax_le_one (c : RGB) (hr : c.r ≤ 255) (hg : c.g ≤ 255) (hb : c.b ≤ 255) :
    hsvCmax c ≤ 1 := by
  obtain ⟨h1, h2, h3⟩ := hsv_channel_le_one c hr hg hb
  exact max_le h1 (max_le h2 h3)

theorem hsvCmin_le_hsvCmax (c : RGB) : hsvCmin c ≤ hsvCmax c :=
  le_trans (min_le_left _ _) (le_max_left _ _)

theorem hsvDelta_nonneg (c : RGB) : 0 ≤ hsvDelta c :=
  sub_nonneg.mpr (hsvCmin_le_hsvCmax c)

theorem hsv_channel_bounds (c : RGB) :
    (hsvCmin c ≤ hsvR c ∧ hsvR c ≤ hsvCmax c) ∧
    (hsvCmin c ≤ hsvG c ∧ hsvG c ≤ hsvCmax c) ∧
    (hsvCmin c ≤ hsvB c ∧ hsvB c ≤ hsvCmax c) := by
  unfold hsvCmin hsvCmax
  refine ⟨⟨min_le_left _ _, le_max_left _ _⟩, ⟨?_, ?_⟩, ⟨?_, ?_⟩⟩
  · exact le_trans (min_le_right _ _) (min_le_left _ _)
  · exact le_trans (le_max_left _ _) (le_max_right _ _)
  · exact le_trans (min_le_right _ _) (min_le_right _ _)
  · exact le_trans (le_max_right _ _) (le_max_right _ _)

theorem div_delta_abs_le_one {c : RGB} {x y : ℚ} (hδ : hsvDelta c ≠ 0)
    (hx1 : hsvCmin c ≤ x) (hx2 : x ≤ hsvCmax c)
    (hy1 : hsvCmin c ≤ y) (hy2 : y ≤ hsvCmax c) :
    |(x - y) / hsvDelta c| ≤ 1 := by
  have hδpos : 0 < hsvDelta c := lt_of_le_of_ne (hsvDelta_nonneg c) (Ne.symm hδ)
  rw [abs_div, abs_of_pos hδpos, div_le_one hδpos, abs_le]
  unfold hsvDelta at *
  constructor <;> linarith

theorem hsvHue0_bounds (c : RGB) : -1 ≤ hsvHue0 c ∧ hsvHue0 c ≤ 5 := by
  obtain ⟨⟨hr1, hr2⟩, ⟨hg1, hg2⟩, ⟨hb1, hb2⟩⟩ := hsv_channel_bounds c
  unfold hsvHue0
  split
  · norm_num
  · next hδ =>
      split
      · have h := div_delta_abs_le_one hδ hg1 hg2 hb1 hb2
        rw [jsFmod_six_eq_self h]
        rw [abs_le] at h
        exact ⟨h.1, by linarith [h.2]⟩
      · split
        · have h := div_delta_abs_le_one hδ hb1 hb2 hr1 hr2
          rw [abs_le] at h
          constructor <;> linarith [h.1, h.2]
        · have h := div_delta_abs_le_one hδ hr1 hr2 hg1 hg2
          rw [abs_le] at h
          constructor <;> linarith [h.1, h.2]

theorem hsvHue_bounds (c : RGB) : 0 ≤ hsvHue c ∧ hsvHue c ≤ 359 := by
  obtain ⟨h1, h2⟩ := hsvHue0_bounds c
  have hlo : (-60 : ℤ) ≤ hsvHue1 c := le_jsRound (by push_cast; linarith)
  have hhi : hsvHue1 c ≤ (300 : ℤ) := jsRound_le (by push_cast; linarith)
  unfold hsvHue
  split
  · next h => omega
  · next h => omega

theorem hsvValue0_bounds (c : RGB) (hr : c.r ≤ 255) (hg : c.g ≤ 255) (hb : c.b ≤ 255) :
    0 ≤ hsvValue0 c ∧ hsvValue0 c ≤ 1 := by
  have h1 := hsvCmin_nonneg c
  have h2 := hsvCmax_le_one c hr hg hb
  have h3 := hsvCmin_le_hsvCmax c
  unfold hsvValue0
  constructor <;> [linarith; linarith]

theorem hsvSat0_bounds (c : RGB) (hr : c.r ≤ 255) (hg : c.g ≤ 255) (hb : c.b ≤ 255) :
    0 ≤ hsvSat0 c ∧ hsvSat0 c ≤ 1 := by
  have h1 := hsvCmin_nonneg c
  have h2 := hsvCmax_le_one c hr hg hb
  have h3 := hsvCmin_le_hsvCmax c
  unfold hsvSat0
  split
  · norm_num
  · next hδ =>
      have hδpos : 0 < hsvDelta c := lt_of_le_of_ne (hsvDelta_nonneg c) (Ne.symm hδ)
      have hδle : hsvDelta c ≤ 1 - |2 * hsvValue0 c - 1| := by
        unfold hsvValue0 hsvDelta at *
        rcases abs_cases (2 * ((hsvCmax c + hsvCmin c) / 2) - 1) with ⟨habs, _⟩ | ⟨habs, _⟩ <;>
        · rw [habs]
          linarith
      have hpos : 0 < 1 - |2 * hsvValue0 c - 1| := lt_of_lt_of_le hδpos hδle
      exact ⟨div_nonneg (le_of_lt hδpos) (le_of_lt hpos), (div_le_one hpos).mpr hδle⟩

/-! ### Claim C8: RGB→HSV on primary colors -/

/-- C8: the conversion maps pure red `(255,0,0)` to hue 0, saturation
100.0, value 50.0; pure green `(0,255,0)` to hue 120; pure blue
`(0,0,255)` to hue 240. -/
theorem C8_hsv_primaries :
    hexToHSV ⟨255, 0, 0⟩ = ⟨0, 100, 50⟩ ∧
      (hexToHSV ⟨0, 255, 0⟩).hue = 120 ∧
      (hexToHSV ⟨0, 0, 255⟩).hue = 240 := by
  refine ⟨?_, ?_, ?_⟩ <;>
    norm_num [hexToHSV, hsvHue, hsvHue1, hsvHue0, hsvDelta, hsvCmax, hsvCmin, hsvR, hsvG,
      hsvB, hsvValue0, hsvSat0, jsFmod, jsTrunc, jsRound, jsToFixed1]

/-! ### Claim C10: range invariant of the color conversion -/

/-- C10: for every input with integer channels in 0–255, `hexToHSV`
returns an integer hue with `0 ≤ hue ≤ 359` (360 is never produced,
while 359 is attained at `(255,195,196)`), and saturation and value
each lie within `[0, 100]`. -/
theorem C10_hsv_ranges :
    (∀ r g b : ℕ, r ≤ 255 → g ≤ 255 → b ≤ 255 →
        0 ≤ (hexToHSV ⟨r, g, b⟩).hue ∧ (hexToHSV ⟨r, g, b⟩).hue ≤ 359 ∧
        0 ≤ (hexToHSV ⟨r, g, b⟩).saturation ∧ (hexToHSV ⟨r, g, b⟩).saturation ≤ 100 ∧
        0 ≤ (hexToHSV ⟨r, g, b⟩).value ∧ (hexToHSV ⟨r, g, b⟩).value ≤ 100) ∧
      (hexToHSV ⟨255, 195, 196⟩).hue = 359 := by
  constructor
  · intro r g b hr hg hb
    have hhue := hsvHue_bounds ⟨r, g, b⟩
    have hsat := hsvSat0_bounds ⟨r, g, b⟩ hr hg hb
    have hval := hsvValue0_bounds ⟨r, g, b⟩ hr hg hb
    have hsat100 := jsToFixed1_bounds (q := hsvSat0 ⟨r, g, b⟩ * 100)
      (by linarith [hsat.1]) (by linarith [hsat.2])
    have hval100 := jsToFixed1_bounds (q := hsvValue0 ⟨r, g, b⟩ * 100)
      (by linarith [hval.1]) (by linarith [hval.2])
    exact ⟨hhue.1, hhue.2, hsat100.1, hsat100.2, hval100.1, hval100.2⟩
  · have htr : jsTrunc (-(1 / 360) : ℚ) = 0 := jsTrunc_eq_zero (by norm_num) (by norm_num)
    norm_num [hexToHSV, hsvHue, hsvHue1, hsvHue0, hsvDelta, hsvCmax, hsvCmin, hsvR, hsvG,
      hsvB, jsFmod, jsRound, htr]

/-- C10, witnessed at channels `(10, 20, 30)`. -/
theorem C10_hsv_ranges_witness :
    0 ≤ (hexToHSV ⟨10, 20, 30⟩).hue ∧ (hexToHSV ⟨10, 20, 30⟩).hue ≤ 359 ∧
      0 ≤ (hexToHSV ⟨10, 20, 30⟩).saturation ∧ (hexToHSV ⟨10, 20, 30⟩).saturation ≤ 100 ∧
      0 ≤ (hexToHSV ⟨10, 20, 30⟩).value ∧ (hexToHSV ⟨10, 20, 30⟩).value ≤ 100 :=
  C10_hsv_ranges.1 10 20 30 (by decide) (by decide) (by decide)

/-! ### Helper lemmas on the string comparator -/

theorem jsStrCmp_self : ∀ a : List Char, jsStrCmp a a = 0 := by
  intro a
  induction a with
  | nil => rfl
  | cons x xs ih =>
      rw [jsStrCmp, if_neg (lt_irrefl x), if_neg (lt_irrefl x)]
      exact ih

theorem jsStrCmp_cons_le {x y : Char} {as bs : List Char} :
    jsStrCmp (x :: as) (y :: bs) ≤ 0 ↔ (x < y ∨ (x = y ∧ jsStrCmp as bs ≤ 0)) := by
  rw [jsStrCmp]
  split
  · next h =>
      constructor
      · intro _; exact Or.inl h
      · intro _; norm_num
  · next h =>
      split
      · next h2 =>
          constructor
          · intro habs; norm_num at habs
          · rintro (hlt | ⟨rfl, _⟩)
            · exact absurd hlt h
            · exact absurd h2 (lt_irrefl x)
      · next h2 =>
          have hxy : x = y := le_antisymm (not_lt.mp h2) (not_lt.mp h)
          constructor
          · intro hc; exact Or.inr ⟨hxy, hc⟩
          · rintro (hlt | ⟨_, hc⟩)
            · exact absurd hlt h
            · exact hc

theorem jsStrCmp_le_trans : ∀ (a b c : List Char),
    jsStrCmp a b ≤ 0 → jsStrCmp b c ≤ 0 → jsStrCmp a c ≤ 0 := by
  intro a
  induction a with
  | nil =>
      intro b c _ _
      cases c <;> norm_num [jsStrCmp]
  | cons x as ih =>
      intro b c h1 h2
      cases b with
      | nil => rw [jsStrCmp] at h1; norm_num at h1
      | cons y bs =>
          cases c with
          | nil => rw [jsStrCmp] at h2; norm_num at h2
          | cons z cs =>
              rw [jsStrCmp_cons_le] at h1 h2 ⊢
              rcases h1 with h1 | ⟨rfl, h1⟩
              · rcases h2 with h2 | ⟨rfl, h2⟩
                · exact Or.inl (lt_trans h1 h2)
                · exact Or.inl h1
              · rcases h2 with h2 | ⟨rfl, h2⟩
                · exact Or.inl h2
                · exact Or.inr ⟨rfl, ih bs cs h1 h2⟩

theorem jsStrCmp_le_total : ∀ a b : List Char, jsStrCmp a b ≤ 0 ∨ jsStrCmp b a ≤ 0 := by
  intro a
  induction a with
  | nil => intro b; left; cases b <;> norm_num [jsStrCmp]
  | cons x as ih =>
      intro b
      cases b with
      | nil => right; norm_num [jsStrCmp]
      | cons y bs =>
          rcases lt_trichotomy x y with h | h | h
          · left; rw [jsStrCmp_cons_le]; exact Or.inl h
          · subst h
            rcases ih bs with hc | hc
            · left; rw [jsStrCmp_cons_le]; exact Or.inr ⟨rfl, hc⟩
            · right; rw [jsStrCmp_cons_le]; exact Or.inr ⟨rfl, hc⟩
          · right; rw [jsStrCmp_cons_le]; exact Or.inl h

/-! ### Helper lemmas on the stable insertion sort -/

theorem insertStable_perm {α : Type} (le : α → α → Bool) (a : α) :
    ∀ l : List α, (insertStable le a l).Perm (a :: l) := by
  intro l
  induction l with
  | nil => exact List.Perm.refl _
  | cons b l ih =>
      rw [insertStable]
      split
      · exact List.Perm.refl _
      · exact (ih.cons b).trans (List.Perm.swap a b l)

theorem stableSort_perm {α : Type} (le : α → α → Bool) :
    ∀ l : List α, (stableSort le l).Perm l := by
  intro l
  induction l with
  | nil => exact List.Perm.refl _
  | cons a l ih =>
      rw [stableSort]
      exact (insertStable_perm le a (stableSort le l)).trans (ih.cons a)

theorem pairwise_insertStable {α : Type} {le : α → α → Bool}
    (htrans : ∀ a b c, le a b = true → le b c = true → le a c = true)
    (htotal : ∀ a b, le a b = true ∨ le b a = true) (a : α) :
    ∀ {l : List α}, l.Pairwise (fun x y => le x y = true) →
      (insertStable le a l).Pairwise (fun x y => le x y = true) := by
  intro l
  induction l with
  | nil =>
      intro _
      exact List.pairwise_cons.mpr ⟨fun x hx => absurd hx (List.not_mem_nil x), List.Pairwise.nil⟩
  | cons b l ih =>
      intro hp
      obtain ⟨hbl, hl⟩ := List.pairwise_cons.mp hp
      rw [insertStable]
      split
      · next hab =>
          refine List.pairwise_cons.mpr ⟨?_, hp⟩
          intro x hx
          rcases List.mem_cons.mp hx with rfl | hx
          · exact hab
          · exact htrans a b x hab (hbl x hx)
      · next hab =>
          have hba : le b a = true := by
            rcases htotal a b with h | h
            · exact absurd h hab
            · exact h
          refine List.pairwise_cons.mpr ⟨?_, ih hl⟩
          intro x hx
          have hx' : x ∈ a :: l := (insertStable_perm le a l).mem_iff.mp hx
          rcases List.mem_cons.mp hx' with rfl | hx''
          · exact hba
          · exact hbl x hx''

theorem pairwise_stableSort {α : Type} {le : α → α → Bool}
    (htrans : ∀ a b c, le a b = true → le b c = true → le a c = true)
    (htotal : ∀ a b, le a b = true ∨ le b a = true) :
    ∀ l : List α, (stableSort le l).Pairwise (fun x y => le x y = true) := by
  intro l
  induction l with
  | nil => exact List.Pairwise.nil
  | cons a l ih =>
      rw [stableSort]
      exact pairwise_insertStable htrans htotal a ih

theorem filter_insertStable_neg {α : Type} (le : α → α → Bool) (p : α → Bool) {a : α}
    (ha : p a = false) :
    ∀ l : List α, (insertStable le a l).filter p = l.filter p := by
  intro l
  induction l with
  | nil => simp [insertStable, ha]
  | cons b l ih =>
      rw [insertStable]
      split
      · simp [List.filter_cons, ha]
      · rw [List.filter_cons, ih, List.filter_cons]

theorem filter_insertStable_pos {α : Type} (le : α → α → Bool) (p : α → Bool) {a : α}
    (ha : p a = true) :
    ∀ l : List α, (∀ b ∈ l, p b = true → le a b = true) →
      (insertStable le a l).filter p = a :: l.filter p := by
  intro l
  induction l with
  | nil => simp [insertStable, ha]
  | cons b l ih =>
      intro hcond
      rw [insertStable]
      split
      · next hab => simp [List.filter_cons, ha]
      · next hab =>
          have hpb : p b = false := by
            cases hpbv : p b
            · rfl
            · exact absurd (hcond b (List.mem_cons_self b l) hpbv) hab
          rw [List.filter_cons, if_neg (by simp [hpb])]
          rw [List.filter_cons, if_neg (by simp [hpb])]
          exact ih fun x hx hpx => hcond x (List.mem_cons_of_mem b hx) hpx

theorem filter_stableSort {α : Type} (le : α → α → Bool) (p : α → Bool)
    (hequiv : ∀ a b, p a = true → p b = true → le a b = true) :
    ∀ l : List α, (stableSort le l).filter p = l.filter p := by
  intro l
  induction l with
  | nil => rfl
  | cons a l ih =>
      rw [stableSort]
      cases hpa : p a
      · rw [filter_insertStable_neg le p hpa, ih, List.filter_cons, if_neg (by simp [hpa])]
      · rw [filter_insertStable_pos le p hpa _
          (fun b _ hpb => hequiv a b hpa hpb), ih,
          List.filter_cons, if_pos (by simp [hpa])]

/-! ### Helper lemmas on the record comparator -/

theorem cmpRecord_eq_sub {p : SortParameter} (hp : p ≠ .filename) (a b : ImageData) :
    cmpRecord p a b = recordKey p a - recordKey p b := by
  cases p
  case filename => exact absurd rfl hp
  all_goals rfl

theorem jsSortLe_trans (p : SortParameter) :
    ∀ a b c, jsSortLe p a b = true → jsSortLe p b c = true → jsSortLe p a c = true := by
  intro a b c h1 h2
  rw [jsSortLe, decide_eq_true_eq] at h1 h2 ⊢
  by_cases hp : p = .filename
  · subst hp
    rw [cmpRecord] at h1 h2 ⊢
    have h1' : jsStrCmp a.imageFilename b.imageFilename ≤ 0 := by exact_mod_cast h1
    have h2' : jsStrCmp b.imageFilename c.imageFilename ≤ 0 := by exact_mod_cast h2
    exact_mod_cast jsStrCmp_le_trans _ _ _ h1' h2'
  · rw [cmpRecord_eq_sub hp] at h1 h2 ⊢
    linarith

theorem jsSortLe_total (p : SortParameter) :
    ∀ a b, jsSortLe p a b = true ∨ jsSortLe p b a = true := by
  intro a b
  rw [jsSortLe, jsSortLe, decide_eq_true_eq, decide_eq_true_eq]
  by_cases hp : p = .filename
  · subst hp
    rw [cmpRecord, cmpRecord]
    rcases jsStrCmp_le_total a.imageFilename b.imageFilename with h | h
    · exact Or.inl (by exact_mod_cast h)
    · exact Or.inr (by exact_mod_cast h)
  · rw [cmpRecord_eq_sub hp, cmpRecord_eq_sub hp]
    rcases le_total (recordKey p a) (recordKey p b) with h | h
    · exact Or.inl (by linarith)
    · exact Or.inr (by linarith)

/-! ### Claim C9: sorting -/

/-- C9: the sorter returns a permutation of the records that is sorted
ascending — by the three-way filename comparison when sorting by
filename, and by the numeric `colorInfo` key for the other attributes —
and it is stable: for every key value, the records carrying that key
appear in the output in exactly their original relative order.  In
particular sorting `["b.png", "a.png", "c.png"]` by filename yields
`["a.png", "b.png", "c.png"]`. -/
theorem C9_sorting :
    (∀ (p : SortParameter) (records : List ImageData),
        (sortRecords p records).Perm records) ∧
    (∀ records : List ImageData,
        (sortRecords .filename records).Pairwise
          (fun a b => jsStrCmp a.imageFilename b.imageFilename ≤ 0)) ∧
    (∀ (p : SortParameter) (records : List ImageData), p ≠ .filename →
        (sortRecords p records).Pairwise (fun a b => recordKey p a ≤ recordKey p b)) ∧
    (∀ (records : List ImageData) (s : List Char),
        (sortRecords .filename records).filter (fun r => r.imageFilename == s) =
          records.filter (fun r => r.imageFilename == s)) ∧
    (∀ (p : SortParameter) (records : List ImageData) (v : ℚ), p ≠ .filename →
        (sortRecords p records).filter (fun r => recordKey p r == v) =
          records.filter (fun r => recordKey p r == v)) ∧
    sortRecords .filename
        [⟨['b', '.', 'p', 'n', 'g'], .source 0 1 1, none, none⟩,
          ⟨['a', '.', 'p', 'n', 'g'], .source 1 1 1, none, none⟩,
          ⟨['c', '.', 'p', 'n', 'g'], .source 2 1 1, none, none⟩] =
      [⟨['a', '.', 'p', 'n', 'g'], .source 1 1 1, none, none⟩,
        ⟨['b', '.', 'p', 'n', 'g'], .source 0 1 1, none, none⟩,
        ⟨['c', '.', 'p', 'n', 'g'], .source 2 1 1, none, none⟩] := by
  refine ⟨?_, ?_, ?_, ?_, ?_, ?_⟩
  · intro p records
    exact stableSort_perm (jsSortLe p) records
  · intro records
    refine (pairwise_stableSort (jsSortLe_trans .filename)
      (jsSortLe_total .filename) records).imp ?_
    intro a b h
    rw [jsSortLe, decide_eq_true_eq, cmpRecord] at h
    exact_mod_cast h
  · intro p records hp
    refine (pairwise_stableSort (jsSortLe_trans p) (jsSortLe_total p) records).imp ?_
    intro a b h
    rw [jsSortLe, decide_eq_true_eq, cmpRecord_eq_sub hp] at h
    linarith
  · intro records s
    refine filter_stableSort _ _ ?_ records
    intro a b ha hb
    rw [beq_iff_eq] at ha hb
    rw [jsSortLe, decide_eq_true_eq, cmpRecord, ha, hb, jsStrCmp_self]
    norm_num
  · intro p records v hp
    refine filter_stableSort _ _ ?_ records
    intro a b ha hb
    rw [beq_iff_eq] at ha hb
    rw [jsSortLe, decide_eq_true_eq, cmpRecord_eq_sub hp, ha, hb]
    norm_num
  · decide

/-- C9, witnessed: the stability filter applied through the theorem at a
concrete hue-sorted list with a duplicated key. -/
theorem C9_sorting_witness :
    (sortRecords .hue
          [⟨['a'], .source 0 1 1, none, some ⟨⟨5, 0, 0⟩, 0, []⟩⟩,
            ⟨['b'], .source 1 1 1, none, some ⟨⟨5, 0, 0⟩, 1, []⟩⟩]).filter
        (fun r => recordKey .hue r == (5 : ℚ)) =
      ([⟨['a'], .source 0 1 1, none, some ⟨⟨5, 0, 0⟩, 0, []⟩⟩,
          ⟨['b'], .source 1 1 1, none, some ⟨⟨5, 0, 0⟩, 1, []⟩⟩] :
        List ImageData).filter (fun r => recordKey .hue r == (5 : ℚ)) :=
  C9_sorting.2.2.2.2.1 .hue
    [⟨['a'], .source 0 1 1, none, some ⟨⟨5, 0, 0⟩, 0, []⟩⟩,
      ⟨['b'], .source 1 1 1, none, some ⟨⟨5, 0, 0⟩, 1, []⟩⟩] 5 (by decide)

end ColorGrid
